import Mathlib

/-!
Verification development for the selective filesystem traversal engine of
the js-framework repository (source: src/src/utils/regex.js, which holds
both the regex sanitizing utilities and the FsParser class).

Modelling conventions, derived from the source:

* Rule fragments are JavaScript primitive values (the configuration lists
  hold literal text fragments; a bare scalar is wrapped into a one-element
  array by the array helper).  They are embedded as `Frag`.
* Fallible JavaScript code (a thrown GAError or a built-in TypeError) is
  embedded in `Except String`, the error string carrying the message.
* `path.sep` is the POSIX separator "/" (the package targets Node on a
  POSIX filesystem; every path in the spec scenarios uses "/").
* A compiled `new RegExp("^(" ++ ap ++ ")", "i")` where `ap` is an
  alternation of escaped literal fragments is embedded as
  `CompiledMatcher`: it keeps the pattern text (`source`) and the list of
  literal alternatives (`alts`).  Its execution semantics — match at
  position 0, case-insensitive, first alternative wins, `result[0]` is the
  consumed prefix of the input — is `rexec`.
-/

deriving instance DecidableEq for Except

/-- JavaScript primitive values that can appear as a rule fragment. -/
inductive Frag where
  | str (s : String)
  | num (n : Int)
  | bool (b : Bool)
  | nil
  | undef
deriving DecidableEq, Repr

/-- JavaScript truthiness of a primitive value. -/
def jsTruthy : Frag → Bool
  | .str s => s ≠ ""
  | .num n => n ≠ 0
  | .bool b => b
  | .nil => false
  | .undef => false

/-- JavaScript ToString coercion of a primitive value (used by the
implicit string concatenations in sanitizeExtRegex and sanitizePathRegex). -/
def fragToString : Frag → String
  | .str s => s
  | .num n => toString n
  | .bool b => if b then "true" else "false"
  | .nil => "null"
  | .undef => "undefined"

/-- JavaScript typeof, as printed by the GAError message of regexEscape. -/
def typeofStr : Frag → String
  | .str _ => "string"
  | .num _ => "number"
  | .bool _ => "boolean"
  | .nil => "object"
  | .undef => "undefined"

/-- JavaScript indexing `p[0]` on a primitive: the first character of a
string, `undefined` for numbers and booleans, and a thrown TypeError for
null and undefined. -/
def jsCharAt0 : Frag → Except String (Option Char)
  | .str s => .ok s.data.head?
  | .num _ => .ok none
  | .bool _ => .ok none
  | .nil => .error "TypeError: Cannot read properties of null (reading 0)"
  | .undef => .error "TypeError: Cannot read properties of undefined (reading 0)"

/-- Characters escaped by regexEscape (source line 94: the character class
containing - / \ ^ $ * + ? . ( ) | [ ] and the two braces). -/
def isMeta (c : Char) : Bool :=
  c = '-' ∨ c = '/' ∨ c = '\\' ∨ c = '^' ∨ c = '$' ∨ c = '*' ∨ c = '+' ∨
  c = '?' ∨ c = '.' ∨ c = '(' ∨ c = ')' ∨ c = '|' ∨ c = '[' ∨ c = ']' ∨
  c = '\x7b' ∨ c = '\x7d'

/-- Escape one character: metacharacters get a leading backslash. -/
def escChars : List Char → List Char
  | [] => []
  | c :: cs => (if isMeta c then ['\\', c] else [c]) ++ escChars cs

/-- Body of regexEscape on an actual string: `s.replace(/[...]/g, (bs)$&)`,
prefixing every metacharacter with a backslash. -/
def escapeStr (s : String) : String := ⟨escChars s.data⟩

/-- Embedding of regexEscape (source lines 88-95): throws the GAError for
every non-string argument, otherwise escapes the metacharacters. -/
def regexEscape : Frag → Except String String
  | .str s => .ok (escapeStr s)
  | f => .error ("regexEscape requires a string, we got a " ++ typeofStr f ++ ".")

/-- Normalization step of sanitizeExtRegex (lines 23-26): when `p[0]` is
not a dot — also for every non-string, whose `p[0]` is undefined — the
fragment is replaced by the string concatenation `"." + p`. -/
def extNorm (p : Frag) : Except String Frag := do
  let c0 ← jsCharAt0 p
  pure (if c0 = some '.' then p else .str ("." ++ fragToString p))

/-- Drop of the first `n` characters of a string (the JavaScript
`substring(n)`), written on the character list so it evaluates by kernel
reduction. -/
def strDrop (s : String) (n : Nat) : String := ⟨s.data.drop n⟩

/-- Take of the first `n` characters of a string, written on the
character list so it evaluates by kernel reduction. -/
def strTake (s : String) (n : Nat) : String := ⟨s.data.take n⟩

/-- Normalization step of sanitizeFileRegex (lines 46-49): a leading path
separator is stripped.  `p[0]` equals the separator only when `p` is a
string starting with it, so non-strings pass through unchanged. -/
def fileNorm (p : Frag) : Except String Frag := do
  let c0 ← jsCharAt0 p
  pure (match p, c0 with
    | .str s, some c => if c = '/' then .str (strDrop s 1) else .str s
    | _, _ => p)

/-- Normalization step of sanitizePathRegex (lines 69-71): when `p[0]` is
not the separator — also for every non-string — the fragment is replaced
by the string concatenation `path.sep + p`. -/
def pathNorm (p : Frag) : Except String Frag := do
  let c0 ← jsCharAt0 p
  pure (if c0 = some '/' then p else .str ("/" ++ fragToString p))

/-- Shared shape of the three sanitize functions: a forEach loop that
normalizes each fragment, escapes it, and joins the escapes with "|" into
the accumulator `ap` (a pipe is appended whenever `ap` is already
non-empty).  Alongside the pattern text the embedding tracks `alts`, the
list of literal alternatives the built pattern denotes: an escape appended
to a non-empty accumulator always adds one alternative (an empty escape
adds the empty alternative, as in "^(abc|)"), while an empty escape
appended to the empty accumulator leaves the pattern — and hence the
alternatives — unchanged. -/
def sanitizeWith (nrm : Frag → Except String Frag) :
    List Frag → String → List String → Except String (String × List String)
  | [], ap, alts => .ok (ap, alts)
  | p :: rest, ap, alts => do
    let p' ← nrm p
    let e ← regexEscape p'
    let ap' := if ap ≠ "" then ap ++ "|" ++ e else ap ++ e
    let alts' := if ap = "" ∧ e = "" then alts else alts ++ [fragToString p']
    sanitizeWith nrm rest ap' alts'

/-- Embedding of sanitizeExtRegex (source lines 19-34). -/
def sanitizeExtRegex (ps : List Frag) : Except String (String × List String) :=
  sanitizeWith extNorm ps "" []

/-- Embedding of sanitizeFileRegex (source lines 42-57). -/
def sanitizeFileRegex (ps : List Frag) : Except String (String × List String) :=
  sanitizeWith fileNorm ps "" []

/-- Embedding of sanitizePathRegex (source lines 65-80). -/
def sanitizePathRegex (ps : List Frag) : Except String (String × List String) :=
  sanitizeWith pathNorm ps "" []

/-- String-level normalizer applied by sanitizeExtRegex to text fragments. -/
def normExtStr (s : String) : String :=
  if s.data.head? = some '.' then s else "." ++ s

/-- String-level normalizer applied by sanitizeFileRegex to text fragments. -/
def normFileStr (s : String) : String :=
  if s.data.head? = some '/' then strDrop s 1 else s

/-- String-level normalizer applied by sanitizePathRegex to text fragments. -/
def normPathStr (s : String) : String :=
  if s.data.head? = some '/' then s else "/" ++ s

/-- Compiled matcher: the RegExp built by _configureRegex, keeping the
pattern text and the literal alternatives it denotes. -/
structure CompiledMatcher where
  source : String
  alts : List String
deriving DecidableEq, Repr

/-- Case-insensitive prefix test, the position-0 match of one escaped
literal alternative under the `i` flag. -/
def ciStartsWith (pref s : String) : Bool :=
  (pref.data.map Char.toLower).isPrefixOf (s.data.map Char.toLower)

/-- Execution semantics of the compiled matcher (RegExp.exec): anchored at
position 0, case-insensitive, the first (leftmost) alternative that
matches wins, and `result[0]` is the prefix of the input it consumed. -/
def rexec (m : CompiledMatcher) (s : String) : Option String :=
  match m.alts.find? (fun a => ciStartsWith a s) with
  | some a => some (strTake s a.data.length)
  | none => none

/-- Match test against a category that may be absent: an absent category
never matches. -/
def matchesOpt : Option CompiledMatcher → String → Bool
  | none, _ => false
  | some m, s => (rexec m s).isSome

/-- Join of already-escaped fragments with the alternation pipe, as the
claims describe the built pattern body. -/
def joinBar : List String → String
  | [] => ""
  | x :: xs => xs.foldl (fun a y => a ++ "|" ++ y) x

/-- Value of one rule category in the options object: either a bare
scalar (undefined when the option is absent) or an array of fragments. -/
inductive CatVal where
  | scalar (f : Frag)
  | list (l : List Frag)
deriving DecidableEq, Repr

/-- Truthiness of a category value: arrays are always truthy. -/
def truthyCat : CatVal → Bool
  | .scalar f => jsTruthy f
  | .list _ => true

/-- Modelled from the spec: the array helper `arr.makeArray` of
utils/array.js is not under src/; the spec says it "wraps a scalar into a
single-element sequence", leaving arrays unchanged. -/
def makeArray : CatVal → List Frag
  | .scalar f => [f]
  | .list l => l

/-- Per-category body of _configureRegex (source lines 169-195): when the
option is truthy, sanitize its fragment list; when the joined pattern text
is non-empty, build the anchored case-insensitive RegExp, else leave the
category absent. -/
def compileCat (san : List Frag → Except String (String × List String))
    (v : CatVal) : Except String (Option CompiledMatcher) :=
  if truthyCat v then do
    let r ← san (makeArray v)
    pure (if r.1 = "" then none else some ⟨"^(" ++ r.1 ++ ")", r.2⟩)
  else pure none

/-- Compiled matchers of the eight rule categories (the #regex field). -/
structure RegexSet where
  allowPaths : Option CompiledMatcher
  ignorePaths : Option CompiledMatcher
  ignoreDirs : Option CompiledMatcher
  onlyFiles : Option CompiledMatcher
  allowFiles : Option CompiledMatcher
  ignoreFiles : Option CompiledMatcher
  ignoreFilesFirst : Option CompiledMatcher
  ignoreExts : Option CompiledMatcher
deriving DecidableEq, Repr

/-- Options object passed to the FsParser constructor: the eight rule
categories plus the two default-policy flags (kept as JavaScript values,
since the source compares them with a strict === true). -/
structure OptsCfg where
  allowPaths : CatVal := .scalar .undef
  ignorePaths : CatVal := .scalar .undef
  onlyFiles : CatVal := .scalar .undef
  allowFiles : CatVal := .scalar .undef
  ignoreFiles : CatVal := .scalar .undef
  ignoreFilesFirst : CatVal := .scalar .undef
  ignoreDirs : CatVal := .scalar .undef
  ignoreExts : CatVal := .scalar .undef
  ignoreFilesByDefault : Frag := .undef
  ignorePathsByDefault : Frag := .undef
deriving DecidableEq, Repr

/-- Embedding of _configureRegex (source lines 165-197), processing the
categories in source order: the two path categories, the five filename
categories, then the extension category.  A thrown error (a non-string
fragment reaching regexEscape, or `p[0]` on null/undefined) aborts
compilation. -/
def configureRegex (o : OptsCfg) : Except String RegexSet := do
  let ap ← compileCat sanitizePathRegex o.allowPaths
  let ip ← compileCat sanitizePathRegex o.ignorePaths
  let onf ← compileCat sanitizeFileRegex o.onlyFiles
  let af ← compileCat sanitizeFileRegex o.allowFiles
  let igf ← compileCat sanitizeFileRegex o.ignoreFiles
  let igff ← compileCat sanitizeFileRegex o.ignoreFilesFirst
  let igd ← compileCat sanitizeFileRegex o.ignoreDirs
  let ie ← compileCat sanitizeExtRegex o.ignoreExts
  pure ⟨ap, ip, igd, onf, af, igf, igff, ie⟩

/-- Decision record pushed onto the #log list by _logMsg (lines 388-392);
the forwarding to the external trace sink is out of scope. -/
structure LogRec where
  func : String
  msg : String
deriving DecidableEq, Repr

/-- Compiled engine state used by the decision functions: the compiled
matchers, the two default policies, and the start and absolute root
paths stored by the constructor. -/
structure Cfg where
  regex : RegexSet
  ignoreFilesByDefault : Frag
  ignorePathsByDefault : Frag
  absPath : String
  startPath : String
deriving DecidableEq, Repr

/-- Removal of the first occurrence of `pat` inside a character list, the
behavior of the JavaScript `hay.replace(pat, "")` with a plain-string
pattern (only the first occurrence, anywhere in the string, is replaced). -/
def dropFirstOcc (pat : List Char) : List Char → List Char
  | [] => []
  | c :: rest =>
    if pat.isPrefixOf (c :: rest) then (c :: rest).drop pat.length
    else c :: dropFirstOcc pat rest

/-- JavaScript `s.replace(pat, "")` for plain-string patterns. -/
def jsReplaceEmpty (s pat : String) : String := ⟨dropFirstOcc pat.data s.data⟩

/-- Root-relative path computation shared by both decision wrappers
(source lines 242-245 and 316-319): drop the first occurrence of the
absolute root from the path, then prepend the separator unless the result
already starts with it. -/
def normRel (absPath filePath : String) : String :=
  let rel := jsReplaceEmpty filePath absPath
  if rel.data.head? = some '/' then rel else "/" ++ rel

/-- Split of a character list on the separator, the JavaScript
`split("/")`: the empty string splits into one empty group. -/
def splitOnSlash : List Char → List (List Char)
  | [] => [[]]
  | c :: rest =>
    match splitOnSlash rest with
    | [] => [[]]
    | g :: gs => if c = '/' then [] :: g :: gs else (c :: g) :: gs

/-- JavaScript `s.split("/")`. -/
def jsSplitSlash (s : String) : List String := (splitOnSlash s.data).map String.mk

/-- Node path.basename, adequate for the trailing-separator-free paths
this engine builds: the part after the last separator. -/
def basename (p : String) : String := (jsSplitSlash p).getLastD p

/-- Index of the last occurrence of a character, counting from `i`. -/
def lastIdxFrom (c : Char) : List Char → Nat → Option Nat
  | [], _ => none
  | d :: rest, i =>
    match lastIdxFrom c rest (i + 1) with
    | some j => some j
    | none => if d = c then some i else none

/-- Node path.extname, adequate for the names this engine tests: the part
of the basename from its last dot, empty when there is no dot or when the
only dot is the leading one (dotfiles have no extension). -/
def extname (p : String) : String :=
  let b := basename p
  match lastIdxFrom '.' b.data 0 with
  | none => ""
  | some 0 => ""
  | some k => strDrop b k

/-- Node path.join on a directory and an entry name, adequate for the
separator-free entry names a directory listing returns. -/
def pathJoin (a b : String) : String :=
  if a = "" then b
  else if a.data.getLast? = some '/' then a ++ b
  else a ++ "/" ++ b

/-- Embedding of FsParser.doWeProcessFile (source lines 240-305) on its
three derived inputs rel/base/ext (the wrapper below computes them from
the file path).  The chain of early returns is written as a cascade of
fallback values: each step either decides, with the log record it emits,
or falls through to the next. -/
def doWeProcessFileCore (cfg : Cfg) (rel base ext : String) : Bool × List LogRec :=
  let fn := "FsParser:_doWeProcessFile"
  let l0 : List LogRec := [⟨fn, "Processing file: " ++ rel⟩]
  let byDefault : Bool × List LogRec :=
    if jsTruthy cfg.ignoreFilesByDefault ∧ cfg.ignoreFilesByDefault = .bool true then
      (false, [⟨fn, "   => ignore file by default"⟩])
    else
      (true, [⟨fn, "   => allow file by default"⟩])
  let step5 : Bool × List LogRec :=
    match cfg.regex.ignoreExts with
    | some m =>
      match rexec m ext with
      | some t => (false, [⟨fn, "   => ignore file extension via: " ++ t⟩])
      | none => byDefault
    | none => byDefault
  let step4 : Bool × List LogRec :=
    match cfg.regex.ignoreFiles with
    | some m =>
      match rexec m base with
      | some t => (false, [⟨fn, "   => ignore file via: " ++ t⟩])
      | none => step5
    | none => step5
  let step3 : Bool × List LogRec :=
    match cfg.regex.allowFiles with
    | some m =>
      match rexec m base with
      | some t => (true, [⟨fn, "   => allow file via: " ++ t⟩])
      | none => step4
    | none => step4
  let step2 : Bool × List LogRec :=
    match cfg.regex.ignoreFilesFirst with
    | some m =>
      match rexec m base with
      | some t => (false, [⟨fn, "   => ignore file first via: " ++ t⟩])
      | none => step3
    | none => step3
  match cfg.regex.onlyFiles with
  | some m =>
    match rexec m base with
    | some t => (true, l0 ++ [⟨fn, "   => only file first via: " ++ t⟩])
    | none => (false, l0)
  | none => (step2.1, l0 ++ step2.2)

/-- File decision on a path: derive the relative path, the basename and
the extension, then run the precedence chain. -/
def doWeProcessFile (cfg : Cfg) (filePath : String) : Bool × List LogRec :=
  doWeProcessFileCore cfg (normRel cfg.absPath filePath) (basename filePath)
    (extname filePath)

/-- Embedding of FsParser.doWeProcessDir (source lines 314-357) on the
normalized relative path and the bare entry name. -/
def doWeProcessDirCore (cfg : Cfg) (rel entry : String) : Bool × List LogRec :=
  let fn := "FsParser:_doWeProcessDir"
  let l0 : List LogRec := [⟨fn, "Processing directory: " ++ rel⟩]
  let byDefault : Bool × List LogRec :=
    if jsTruthy cfg.ignorePathsByDefault ∧ cfg.ignorePathsByDefault = .bool true then
      (false, [⟨fn, "   => ignore dir by default"⟩])
    else
      (true, [⟨fn, "   => allow dir by default"⟩])
  let step3 : Bool × List LogRec :=
    match cfg.regex.ignoreDirs with
    | some m =>
      match rexec m entry with
      | some t => (false, [⟨fn, "   => ignore dir via: " ++ t⟩])
      | none => byDefault
    | none => byDefault
  let step2 : Bool × List LogRec :=
    match cfg.regex.ignorePaths with
    | some m =>
      match rexec m rel with
      | some t => (false, [⟨fn, "   => ignore path via: " ++ t⟩])
      | none => step3
    | none => step3
  let step1 : Bool × List LogRec :=
    match cfg.regex.allowPaths with
    | some m =>
      match rexec m rel with
      | some t => (true, [⟨fn, "   => allow path via: " ++ t⟩])
      | none => step2
    | none => step2
  (step1.1, l0 ++ step1.2)

/-- Directory decision on a path and its bare entry name. -/
def doWeProcessDir (cfg : Cfg) (filePath entry : String) : Bool × List LogRec :=
  doWeProcessDirCore cfg (normRel cfg.absPath filePath) entry

/-- Filesystem entries listed during a walk.  `vanished` models an entry
returned by readdirSync whose statSync then throws (the entry was removed
between the listing and the stat, or is unreadable). -/
inductive FsEntry where
  | file (name : String)
  | dir (name : String) (children : List FsEntry)
  | vanished (name : String)

/-- Outcome of one _parseDir activation: the file paths it pushed, the
log records it emitted, and the rejection (if any) of its own promise.

Execution model, read off source lines 216-232: every filesystem call is
a synchronous variant and the async map callbacks contain no await, so
each callback body — including the synchronous prefix of a recursive
_parseDir call, which performs all of that subtree's pushes — runs to
completion, in entry order, before `entries.map` returns.  The traversal
is therefore a sequential depth-first walk, and all results are pushed
before the top-level parse resumes.  A callback that throws (statSync on
a vanished entry) rejects that callback's promise; map still runs the
remaining callbacks, and Promise.all then rejects with the first error in
entry order.  The recursive `this._parseDir(filePath)` on line 227 is not
awaited: the promise it returns is dropped, so a rejection deeper in the
tree is discarded (an unhandled rejection) instead of reaching the
parent — `walkEntry` discards the `err` of a subtree, mirroring that line. -/
structure WalkOut where
  results : List String
  log : List LogRec
  err : Option String
deriving DecidableEq, Repr

mutual
/-- Processing of one directory entry by the map callback of _parseDir. -/
def walkEntry (cfg : Cfg) (dir : String) : FsEntry → WalkOut
  | .vanished n =>
    ⟨[], [], some ("ENOENT: no such file or directory, stat " ++ pathJoin dir n)⟩
  | .file n =>
    let fp := pathJoin dir n
    let r := doWeProcessFile cfg fp
    ⟨if r.1 then [fp] else [], r.2, none⟩
  | .dir n ch =>
    let fp := pathJoin dir n
    let r := doWeProcessDir cfg fp n
    if r.1 then
      let sub := walkEntries cfg fp ch
      ⟨sub.results, r.2 ++ sub.log, none⟩
    else ⟨[], r.2, none⟩

/-- Processing of a directory listing, in entry order. -/
def walkEntries (cfg : Cfg) (dir : String) : List FsEntry → WalkOut
  | [] => ⟨[], [], none⟩
  | e :: es =>
    let o1 := walkEntry cfg dir e
    let o2 := walkEntries cfg dir es
    ⟨o1.results ++ o2.results, o1.log ++ o2.log, o1.err <|> o2.err⟩
end

/-- Engine state visible across parse calls on one instance: the result
collection and the log accumulated so far. -/
structure WalkSt where
  results : List String
  log : List LogRec
deriving DecidableEq, Repr

/-- Embedding of FsParser.parse (source lines 204-209): the result
collection is cleared first (`this.#results = []`, so the returned
results are independent of `prior.results`, while the log keeps growing),
the walk starts at the start path, and the rejection of the awaited
top-level _parseDir is the rejection of parse. -/
def parse (cfg : Cfg) (rootEntries : List FsEntry) (prior : WalkSt) :
    Except String (List String) × List LogRec :=
  let o := walkEntries cfg cfg.startPath rootEntries
  match o.err with
  | some e => (.error e, prior.log ++ o.log)
  | none => (.ok o.results, prior.log ++ o.log)

mutual
/-- Absence of vanishing entries in a subtree (no filesystem race). -/
def cleanE : FsEntry → Bool
  | .file _ => true
  | .vanished _ => false
  | .dir _ ch => cleanL ch

/-- Absence of vanishing entries in a listing. -/
def cleanL : List FsEntry → Bool
  | [] => true
  | e :: es => cleanE e && cleanL es
end

mutual
/-- Specification-side reading of the traversal result (claim C1): the
files of a subtree reachable through directories that pass the Directory
decision and that themselves pass the File decision. -/
def specAcceptedEntry (cfg : Cfg) (dir : String) : FsEntry → List String
  | .file n =>
    if (doWeProcessFile cfg (pathJoin dir n)).1 then [pathJoin dir n] else []
  | .dir n ch =>
    if (doWeProcessDir cfg (pathJoin dir n) n).1 then
      specAcceptedEntries cfg (pathJoin dir n) ch
    else []
  | .vanished _ => []

/-- Specification-side accepted files of a whole listing. -/
def specAcceptedEntries (cfg : Cfg) (dir : String) : List FsEntry → List String
  | [] => []
  | e :: es => specAcceptedEntry cfg dir e ++ specAcceptedEntries cfg dir es
end

/-- Specification-side File decision, written from the words of claim C2:
six precedence steps, first applicable rule wins. -/
def specFileDecision (cfg : Cfg) (base ext : String) : Bool :=
  match cfg.regex.onlyFiles with
  | some m => (rexec m base).isSome
  | none =>
    if matchesOpt cfg.regex.ignoreFilesFirst base then false
    else if matchesOpt cfg.regex.allowFiles base then true
    else if matchesOpt cfg.regex.ignoreFiles base then false
    else if matchesOpt cfg.regex.ignoreExts ext then false
    else if cfg.ignoreFilesByDefault = .bool true then false else true

/-- Specification-side Directory decision, written from the words of
claim C3: four precedence steps. -/
def specDirDecision (cfg : Cfg) (rel entry : String) : Bool :=
  if matchesOpt cfg.regex.allowPaths rel then true
  else if matchesOpt cfg.regex.ignorePaths rel then false
  else if matchesOpt cfg.regex.ignoreDirs entry then false
  else if cfg.ignorePathsByDefault = .bool true then false else true

/-- Argument of a Node path.join call.  path.join validates every
argument with validateString and throws a TypeError when one is not a
string (an Array in particular). -/
inductive JsArg where
  | str (s : String)
  | arr (l : List String)
  | undef
deriving DecidableEq, Repr

/-- Node path.join on two arguments, with its argument validation. -/
def jsPathJoin2 (a b : JsArg) : Except String String :=
  match a, b with
  | .str x, .str y => .ok (pathJoin x y)
  | .arr _, _ =>
    .error "TypeError [ERR_INVALID_ARG_TYPE]: The path argument must be of type string. Received an instance of Array"
  | _, _ =>
    .error "TypeError [ERR_INVALID_ARG_TYPE]: The path argument must be of type string"

/-- Embedding of FsParser.freeformCheckFile (source lines 365-380): split
the path on the separator, pop the file name, pop the parent entry name,
and rebuild the parent path with `path.join(sp, entry)` — whose first
argument `sp` is the remaining split ARRAY, not a string, so the call
throws a TypeError before any decision runs. -/
def freeformCheckFile (cfg : Cfg) (file : String) : Except String Bool := do
  let sp := jsSplitSlash file
  let sp1 := sp.dropLast
  let entry := sp1.getLastD ""
  let entryArg : JsArg := if sp1 = [] then .undef else .str entry
  let sp2 := sp1.dropLast
  let joined ← jsPathJoin2 (.arr sp2) entryArg
  if !(doWeProcessDir cfg joined entry).1 then
    pure false
  else if !(doWeProcessFile cfg file).1 then
    pure false
  else
    pure true

/-- Success test on an embedded fallible computation (no exception was
thrown). -/
def isOkE {α : Type} : Except String α → Bool
  | .ok _ => true
  | .error _ => false

/-- Test for a text fragment. -/
def isTextFrag : Frag → Bool
  | .str _ => true
  | _ => false

/-- Test for a fragment that is a number or a boolean (a non-text value
whose `p[0]` is undefined, so it reaches regexEscape unchanged in the
filename categories). -/
def isNumBool : Frag → Bool
  | .num _ => true
  | .bool _ => true
  | _ => false

/-- Fragments a category value actually supplies to the compiler: a
falsy value is skipped by _configureRegex and supplies none. -/
def catFrags (v : CatVal) : List Frag :=
  if truthyCat v then makeArray v else []

/-- All fragments a category value supplies are text. -/
def catAllText (v : CatVal) : Bool := (catFrags v).all isTextFrag

/-- All fragments of every category of an options object are text. -/
def allTextOpts (o : OptsCfg) : Bool :=
  catAllText o.allowPaths && catAllText o.ignorePaths && catAllText o.onlyFiles &&
  catAllText o.allowFiles && catAllText o.ignoreFiles && catAllText o.ignoreFilesFirst &&
  catAllText o.ignoreDirs && catAllText o.ignoreExts

/-- Test for the null and undefined values, whose indexing `p[0]` throws
a TypeError inside every sanitizer. -/
def isNilUndef : Frag → Bool
  | .nil => true
  | .undef => true
  | _ => false

/-- Test for a fragment the path and extension normalizers turn into
text: text itself, numbers and booleans (the latter two are coerced by
the separator or dot prepended through string concatenation). -/
def isTextNumBool (f : Frag) : Bool := isTextFrag f || isNumBool f

/-- All fragments a category value supplies are text, number or boolean. -/
def catAllTNB (v : CatVal) : Bool := (catFrags v).all isTextNumBool

/-- Benign options: the path and extension categories supply only text,
number or boolean fragments and the filename categories only text. -/
def benignOpts (o : OptsCfg) : Bool :=
  catAllTNB o.allowPaths && catAllTNB o.ignorePaths && catAllText o.onlyFiles &&
  catAllText o.allowFiles && catAllText o.ignoreFiles && catAllText o.ignoreFilesFirst &&
  catAllText o.ignoreDirs && catAllTNB o.ignoreExts

/-- A truthy category value containing a non-text fragment. -/
def badCat (v : CatVal) : Prop :=
  truthyCat v = true ∧ ∃ f ∈ makeArray v, isTextFrag f = false

/-- A truthy category value containing a null or undefined fragment. -/
def badNullCat (v : CatVal) : Prop :=
  truthyCat v = true ∧ ∃ f ∈ makeArray v, isNilUndef f = true

/-- Some filename category of the options supplies, in a truthy value, a
fragment that is not text. -/
def badFileCats (o : OptsCfg) : Prop :=
  badCat o.onlyFiles ∨ badCat o.allowFiles ∨ badCat o.ignoreFiles ∨
  badCat o.ignoreFilesFirst ∨ badCat o.ignoreDirs

/-- Some category of the options supplies, in a truthy value, a null or
undefined fragment. -/
def badNullOpts (o : OptsCfg) : Prop :=
  badNullCat o.allowPaths ∨ badNullCat o.ignorePaths ∨ badNullCat o.onlyFiles ∨
  badNullCat o.allowFiles ∨ badNullCat o.ignoreFiles ∨ badNullCat o.ignoreFilesFirst ∨
  badNullCat o.ignoreDirs ∨ badNullCat o.ignoreExts

/-- Options of spec scenario 1: ignoreDirs set to the single fragment
node_modules. -/
def nmOpts : OptsCfg := { ignoreDirs := .list [.str "node_modules"] }

/-- Compiled matchers of scenario 1 (the value configureRegex produces on
nmOpts). -/
def nmRegex : RegexSet :=
  ⟨none, none, some ⟨"^(node_modules)", ["node_modules"]⟩, none, none, none, none, none⟩

/-- Engine of scenario 1, rooted at /root. -/
def nmCfg : Cfg := ⟨nmRegex, .undef, .undef, "/root", "/root"⟩

/-- Directory tree of spec scenario 1. -/
def tree1 : List FsEntry :=
  [.file "a.txt", .dir "sub" [.file "b.md"], .dir "node_modules" [.file "c.js"]]

/-- Engine with no matchers and non-boolean default-policy values (the
string "true" for files, the number 1 for paths). -/
def strictCfg : Cfg :=
  ⟨⟨none, none, none, none, none, none, none, none⟩, .str "true", .num 1, "/root", "/root"⟩

lemma fileCore_eq_spec (cfg : Cfg) (rel base ext : String) :
    (doWeProcessFileCore cfg rel base ext).1 = specFileDecision cfg base ext := by
  obtain ⟨⟨rap, rip, rid, ron, raf, rif, riff, rie⟩, fdef, pdef, absP, stP⟩ := cfg
  unfold doWeProcessFileCore specFileDecision
  dsimp only
  cases ron with
  | some m0 => cases hr0 : rexec m0 base <;> simp [hr0]
  | none =>
    rcases riff with _ | m1 <;> rcases raf with _ | m2 <;>
    rcases rif with _ | m3 <;> rcases rie with _ | m4 <;>
    (try cases hr1 : rexec m1 base) <;>
    (try cases hr2 : rexec m2 base) <;>
    (try cases hr3 : rexec m3 base) <;>
    (try cases hr4 : rexec m4 ext) <;>
    simp_all [matchesOpt] <;>
    (by_cases hv : fdef = Frag.bool true <;> simp_all [jsTruthy])

lemma dirCore_eq_spec (cfg : Cfg) (rel entry : String) :
    (doWeProcessDirCore cfg rel entry).1 = specDirDecision cfg rel entry := by
  obtain ⟨⟨rap, rip, rid, ron, raf, rif, riff, rie⟩, fdef, pdef, absP, stP⟩ := cfg
  unfold doWeProcessDirCore specDirDecision
  dsimp only
  rcases rap with _ | m1 <;> rcases rip with _ | m2 <;> rcases rid with _ | m3 <;>
  (try cases hr1 : rexec m1 rel) <;>
  (try cases hr2 : rexec m2 rel) <;>
  (try cases hr3 : rexec m3 entry) <;>
  simp_all [matchesOpt] <;>
  (by_cases hv : pdef = Frag.bool true <;> simp_all [jsTruthy])

/-- Claim C2: for every basename and extension, the File decision follows
the exact claimed precedence — onlyFiles is exclusive when present, then
ignoreFilesFirst denies, allowFiles allows, ignoreFiles denies, ignoreExts
denies on the extension, and otherwise the decision is deny exactly when
ignoreFilesByDefault is the boolean true.  `specFileDecision` is that
precedence written from the words of the claim. -/
theorem c2_file_decision_precedence (cfg : Cfg) (rel base ext : String) :
    (doWeProcessFileCore cfg rel base ext).1 = specFileDecision cfg base ext :=
  fileCore_eq_spec cfg rel base ext

/-- Claim C3: for every normalized root-relative path and bare entry name,
the Directory decision follows the exact claimed precedence — allowPaths
allows on the relative path, ignorePaths denies on it, ignoreDirs denies
on the entry name, and otherwise the decision is deny exactly when
ignorePathsByDefault is the boolean true.  `specDirDecision` is that
precedence written from the words of the claim. -/
theorem c3_dir_decision_precedence (cfg : Cfg) (rel entry : String) :
    (doWeProcessDirCore cfg rel entry).1 = specDirDecision cfg rel entry :=
  dirCore_eq_spec cfg rel entry

/-- Claim C10: the default-policy checks compare with a strict === true,
so any other value — the string "true", the number 1 — makes the default
branch allow, for the File decision and the Directory decision alike. -/
theorem c10_default_policy_strict (cfg : Cfg) (rel base ext entry : String)
    (h1 : cfg.regex.onlyFiles = none)
    (h2 : matchesOpt cfg.regex.ignoreFilesFirst base = false)
    (h3 : matchesOpt cfg.regex.allowFiles base = false)
    (h4 : matchesOpt cfg.regex.ignoreFiles base = false)
    (h5 : matchesOpt cfg.regex.ignoreExts ext = false)
    (h6 : cfg.ignoreFilesByDefault ≠ .bool true)
    (h7 : matchesOpt cfg.regex.allowPaths rel = false)
    (h8 : matchesOpt cfg.regex.ignorePaths rel = false)
    (h9 : matchesOpt cfg.regex.ignoreDirs entry = false)
    (h10 : cfg.ignorePathsByDefault ≠ .bool true) :
    (doWeProcessFileCore cfg rel base ext).1 = true ∧
    (doWeProcessDirCore cfg rel entry).1 = true := by
  constructor
  · rw [fileCore_eq_spec]
    simp [specFileDecision, h1, h2, h3, h4, h5, h6]
  · rw [dirCore_eq_spec]
    simp [specDirDecision, h7, h8, h9, h10]

/-- Witness for C10: on the matcher-free engine whose file default policy
is the string "true" and whose path default policy is the number 1, both
decisions allow. -/
theorem c10_default_policy_strict_witness :
    strictCfg.ignoreFilesByDefault = Frag.str "true" ∧
    strictCfg.ignorePathsByDefault = Frag.num 1 ∧
    (doWeProcessFileCore strictCfg "/a.txt" "a.txt" ".txt").1 = true ∧
    (doWeProcessDirCore strictCfg "/sub" "sub").1 = true := by
  refine ⟨rfl, rfl, ?_⟩
  exact c10_default_policy_strict strictCfg "/sub" "a.txt" ".txt" "sub"
    rfl rfl rfl rfl rfl (by decide) rfl rfl rfl (by decide)

/-- Claim C9: once a directory entry is denied by the Directory decision,
walking it is identical to walking it with an empty subtree — no
descendant is visited, none of its files can reach the result collection,
and no descendant entry produces a log record (only the denied directory
itself logs its own decision). -/
theorem c9_denied_dir_prunes_subtree (cfg : Cfg) (dir n : String) (ch : List FsEntry)
    (h : (doWeProcessDir cfg (pathJoin dir n) n).1 = false) :
    walkEntry cfg dir (.dir n ch) = walkEntry cfg dir (.dir n []) := by
  simp [walkEntry, h]

/-- Witness for C9: in scenario 1 the node_modules directory is denied
and its walk equals the walk of an empty directory (no trace of c.js). -/
theorem c9_denied_dir_prunes_subtree_witness :
    (doWeProcessDir nmCfg (pathJoin "/root" "node_modules") "node_modules").1 = false ∧
    walkEntry nmCfg "/root" (.dir "node_modules" [.file "c.js"]) =
      walkEntry nmCfg "/root" (.dir "node_modules" []) :=
  ⟨by decide,
   c9_denied_dir_prunes_subtree nmCfg "/root" "node_modules" [.file "c.js"] (by decide)⟩

/-- Claim C6 is violated by the code: _parseDir wraps no filesystem call
in a try/catch, so a statSync failure on a directly listed entry (here an
entry that vanished between readdirSync and statSync) rejects parse
itself — the accepted files from the readable parts are not returned —
and the log carries no record describing the failure (the only records
concern the readable sibling). -/
theorem c6_stat_error_rejects_parse :
    (parse nmCfg [.vanished "gone.txt", .file "a.txt"] ⟨[], []⟩).1 =
      .error "ENOENT: no such file or directory, stat /root/gone.txt" ∧
    (parse nmCfg [.vanished "gone.txt", .file "a.txt"] ⟨[], []⟩).2 =
      [⟨"FsParser:_doWeProcessFile", "Processing file: /a.txt"⟩,
       ⟨"FsParser:_doWeProcessFile", "   => allow file by default"⟩] := by
  constructor <;> rfl

/-- Claim C7 is violated by the code: freeformCheckFile passes the split
ARRAY as the first argument of path.join (source line 371), so the call
on the spec scenario input throws a TypeError instead of returning false. -/
theorem c7_freeform_throws_typeerror :
    freeformCheckFile nmCfg "/root/node_modules/c.js" =
      .error "TypeError [ERR_INVALID_ARG_TYPE]: The path argument must be of type string. Received an instance of Array" := by
  rfl

mutual
/-- Error-free walks push exactly the specification-side accepted files
and reject nothing: single-entry case. -/
theorem walkEntry_clean_ok (cfg : Cfg) (dir : String) :
    ∀ e : FsEntry, cleanE e = true →
      (walkEntry cfg dir e).err = none ∧
      (walkEntry cfg dir e).results = specAcceptedEntry cfg dir e
  | .file n, _ => by
    simp only [walkEntry, specAcceptedEntry]
    constructor <;> simp
  | .vanished n, h => by simp [cleanE] at h
  | .dir n ch, h => by
    have ih := walkEntries_clean_ok cfg (pathJoin dir n) ch (by simpa [cleanE] using h)
    by_cases hd : (doWeProcessDir cfg (pathJoin dir n) n).1 <;>
      simp [walkEntry, specAcceptedEntry, hd, ih.1, ih.2]

/-- Error-free walks push exactly the specification-side accepted files
and reject nothing: listing case. -/
theorem walkEntries_clean_ok (cfg : Cfg) (dir : String) :
    ∀ es : List FsEntry, cleanL es = true →
      (walkEntries cfg dir es).err = none ∧
      (walkEntries cfg dir es).results = specAcceptedEntries cfg dir es
  | [], _ => by simp [walkEntries, specAcceptedEntries]
  | e :: es, h => by
    have hh : cleanE e = true ∧ cleanL es = true := by
      simpa [cleanL, Bool.and_eq_true] using h
    have i1 := walkEntry_clean_ok cfg dir e hh.1
    have i2 := walkEntries_clean_ok cfg dir es hh.2
    simp [walkEntries, specAcceptedEntries, i1.1, i1.2, i2.1, i2.2]
end

/-- Claim C1: on a directory tree free of mid-walk filesystem races, a
parse call clears the result collection (the returned results are
independent of the prior collection passed in) and resolves to exactly
the files reachable from the root through directories that pass the
Directory decision and that themselves pass the File decision
(`specAcceptedEntries`, written from the words of the claim).  Although
line 227 drops the promise of the recursive subtree walk, every push of
every subtree happens in the synchronous prefix of its callback, before
the awaited top-level Promise.all settles, so the collection is complete
when parse resolves — see the execution-model comment on `WalkOut`. -/
theorem c1_parse_returns_accepted_set (cfg : Cfg) (es : List FsEntry) (prior : WalkSt)
    (h : cleanL es = true) :
    (parse cfg es prior).1 = .ok (specAcceptedEntries cfg cfg.startPath es) := by
  have hw := walkEntries_clean_ok cfg cfg.startPath es h
  simp [parse, hw.1, hw.2]

/-- Witness for C1: scenario 1 of the spec, with a stale prior result
collection that must be cleared: parse returns exactly the two accepted
files. -/
theorem c1_parse_returns_accepted_set_witness :
    cleanL tree1 = true ∧
    (parse nmCfg tree1 ⟨["stale"], []⟩).1 =
      .ok (specAcceptedEntries nmCfg nmCfg.startPath tree1) ∧
    specAcceptedEntries nmCfg nmCfg.startPath tree1 = ["/root/a.txt", "/root/sub/b.md"] :=
  ⟨by decide, c1_parse_returns_accepted_set nmCfg tree1 ⟨["stale"], []⟩ (by decide),
   by decide⟩

lemma str_empty_append (s : String) : "" ++ s = s := by
  cases s with
  | mk d => rfl

lemma str_mk_eq_empty (d : List Char) : (⟨d⟩ : String) = "" ↔ d = [] := by
  constructor
  · intro h
    have := congrArg String.data h
    simpa using this
  · intro h; subst h; rfl

lemma str_len_append (a b : String) : (a ++ b).length = a.length + b.length := by
  cases a with
  | mk da => cases b with
    | mk db => simp [String.length, String.append]

lemma append_bar_ne (a b : String) : a ++ "|" ++ b ≠ "" := by
  intro h
  have hl := congrArg String.length h
  rw [str_len_append, str_len_append] at hl
  have h1 : ("|" : String).length = 1 := rfl
  have h0 : ("" : String).length = 0 := rfl
  rw [h1, h0] at hl
  omega

lemma escapeStr_ne_empty (s : String) (hs : s ≠ "") : escapeStr s ≠ "" := by
  cases s with
  | mk d =>
    cases d with
    | nil => exact absurd rfl hs
    | cons c cs =>
      simp only [escapeStr, escChars, ne_eq, str_mk_eq_empty]
      by_cases hm : isMeta c <;> simp [hm]

lemma extNorm_str (s : String) : extNorm (.str s) = .ok (.str (normExtStr s)) := by
  unfold extNorm normExtStr jsCharAt0
  by_cases h : s.data.head? = some '.' <;> simp [h, fragToString]

lemma fileNorm_str (s : String) : fileNorm (.str s) = .ok (.str (normFileStr s)) := by
  unfold fileNorm normFileStr jsCharAt0
  rcases hc : s.data.head? with _ | c
  · simp [hc]
  · by_cases h : c = '/'
    · subst h; simp [hc]
    · simp [hc, h]

lemma pathNorm_str (s : String) : pathNorm (.str s) = .ok (.str (normPathStr s)) := by
  unfold pathNorm normPathStr jsCharAt0
  by_cases h : s.data.head? = some '/' <;> simp [h, fragToString]

lemma normExtStr_ne_empty (s : String) : normExtStr s ≠ "" := by
  unfold normExtStr
  by_cases h : s.data.head? = some '.'
  · rw [if_pos h]
    cases s with
    | mk d => cases d with
      | nil => simp at h
      | cons c cs => simp [str_mk_eq_empty]
  · rw [if_neg h]
    intro he
    have hl := congrArg String.length he
    rw [str_len_append] at hl
    have h1 : ("." : String).length = 1 := rfl
    have h0 : ("" : String).length = 0 := rfl
    rw [h1, h0] at hl
    omega

lemma normPathStr_ne_empty (s : String) : normPathStr s ≠ "" := by
  unfold normPathStr
  by_cases h : s.data.head? = some '/'
  · rw [if_pos h]
    cases s with
    | mk d => cases d with
      | nil => simp at h
      | cons c cs => simp [str_mk_eq_empty]
  · rw [if_neg h]
    intro he
    have hl := congrArg String.length he
    rw [str_len_append] at hl
    have h1 : ("/" : String).length = 1 := rfl
    have h0 : ("" : String).length = 0 := rfl
    rw [h1, h0] at hl
    omega

/-- Claim C5: every text fragment is normalized by category before being
escaped — the extension category prepends a dot when the fragment does
not begin with one, the filename categories strip a leading separator,
and the path categories prepend the separator when absent — and the
escape is applied to the normalized fragment. -/
theorem c5_normalize_before_escape (s : String) :
    (sanitizeExtRegex [.str s]).map Prod.fst = .ok (escapeStr (normExtStr s)) ∧
    (sanitizeFileRegex [.str s]).map Prod.fst = .ok (escapeStr (normFileStr s)) ∧
    (sanitizePathRegex [.str s]).map Prod.fst = .ok (escapeStr (normPathStr s)) := by
  refine ⟨?_, ?_, ?_⟩ <;>
    simp [sanitizeExtRegex, sanitizeFileRegex, sanitizePathRegex, sanitizeWith,
      extNorm_str, fileNorm_str, pathNorm_str, regexEscape, bind, Except.bind,
      Except.map, str_empty_append]

lemma sanitize_acc (nrm : Frag → Except String Frag) (g : String → String)
    (hg : ∀ s, nrm (.str s) = .ok (.str (g s))) :
    ∀ (fs : List String) (ap : String) (alts : List String), ap ≠ "" →
      sanitizeWith nrm (fs.map .str) ap alts =
        .ok (fs.foldl (fun a f => a ++ "|" ++ escapeStr (g f)) ap, alts ++ fs.map g) := by
  intro fs
  induction fs with
  | nil => intro ap alts h; simp [sanitizeWith]
  | cons f rest ih =>
    intro ap alts h
    simp only [List.map_cons, sanitizeWith, hg, regexEscape, bind, Except.bind, fragToString]
    rw [if_pos h, if_neg (by simp [h])]
    rw [ih (ap ++ "|" ++ escapeStr (g f)) (alts ++ [g f]) (append_bar_ne ap (escapeStr (g f)))]
    simp [List.foldl_cons]

lemma sanitize_full (nrm : Frag → Except String Frag) (g : String → String)
    (hg : ∀ s, nrm (.str s) = .ok (.str (g s)))
    (f0 : String) (rest : List String) (h0 : g f0 ≠ "") :
    sanitizeWith nrm ((f0 :: rest).map .str) "" [] =
      .ok (rest.foldl (fun a f => a ++ "|" ++ escapeStr (g f)) (escapeStr (g f0)),
           (f0 :: rest).map g) := by
  have hne := escapeStr_ne_empty (g f0) h0
  simp only [List.map_cons, sanitizeWith, hg, regexEscape, bind, Except.bind, fragToString]
  rw [if_neg (by simp), if_neg (by simp [hne])]
  rw [str_empty_append]
  cases rest with
  | nil => simp [sanitizeWith]
  | cons r rs =>
    rw [List.nil_append]
    rw [sanitize_acc nrm g hg (r :: rs) (escapeStr (g f0)) [g f0] hne]
    simp

lemma foldl_bar_len (xs : List String) (x : String) :
    x.length ≤ (xs.foldl (fun a y => a ++ "|" ++ y) x).length := by
  induction xs generalizing x with
  | nil => simp
  | cons y ys ih =>
    calc x.length ≤ (x ++ "|" ++ y).length := by
          rw [str_len_append, str_len_append]; omega
      _ ≤ _ := ih (x ++ "|" ++ y)

lemma joinBar_ne_empty (x : String) (xs : List String) (hx : x ≠ "") :
    joinBar (x :: xs) ≠ "" := by
  unfold joinBar
  intro h
  have hl := congrArg String.length h
  have h0 : ("" : String).length = 0 := rfl
  rw [h0] at hl
  have hle := foldl_bar_len xs x
  rw [hl] at hle
  have hx0 : x.length ≠ 0 := by
    intro hz
    apply hx
    cases x with
    | mk d =>
      cases d with
      | nil => rfl
      | cons c cs => simp [String.length] at hz
  omega

lemma joinBar_cons (x : String) (xs : List String) :
    joinBar (x :: xs) = xs.foldl (fun a y => a ++ "|" ++ y) x := rfl

lemma compileCat_some (san : List Frag → Except String (String × List String))
    (v : CatVal) (ap : String) (alts : List String)
    (htr : truthyCat v = true) (hsan : san (makeArray v) = .ok (ap, alts)) (hne : ap ≠ "") :
    compileCat san v = .ok (some ⟨"^(" ++ ap ++ ")", alts⟩) := by
  simp [compileCat, htr, hsan, bind, Except.bind, hne, pure, Except.pure]

lemma matchesOpt_some_any (m : CompiledMatcher) (s : String) :
    matchesOpt (some m) s = m.alts.any fun a => ciStartsWith a s := by
  simp only [matchesOpt, rexec]
  cases hf : m.alts.find? (fun a => ciStartsWith a s) with
  | some a =>
    have hm := List.mem_of_find?_eq_some hf
    have hp := List.find?_some hf
    simp only [Option.isSome_some]
    exact (List.any_eq_true.mpr ⟨a, hm, hp⟩).symm
  | none =>
    have hall : ∀ a ∈ m.alts, ¬ciStartsWith a s = true := by
      intro a ha
      simpa using List.find?_eq_none.mp hf a ha
    simp only [Option.isSome_none]
    symm
    simp only [List.any_eq_false]
    exact hall

lemma compileCat_full (nrm : Frag → Except String Frag)
    (san : List Frag → Except String (String × List String))
    (hsan : ∀ ps, san ps = sanitizeWith nrm ps "" [])
    (g : String → String)
    (hg : ∀ s, nrm (.str s) = .ok (.str (g s)))
    (f0 : String) (rest : List String) (h0 : g f0 ≠ "") :
    compileCat san (.list ((f0 :: rest).map .str)) =
      .ok (some ⟨"^(" ++ joinBar ((f0 :: rest).map fun f => escapeStr (g f)) ++ ")",
                 (f0 :: rest).map g⟩) := by
  have hfull := sanitize_full nrm g hg f0 rest h0
  have hjoin : joinBar ((f0 :: rest).map fun f => escapeStr (g f)) =
      rest.foldl (fun a f => a ++ "|" ++ escapeStr (g f)) (escapeStr (g f0)) := by
    rw [List.map_cons, joinBar_cons, List.foldl_map]
  have hne : rest.foldl (fun a f => a ++ "|" ++ escapeStr (g f)) (escapeStr (g f0)) ≠ "" := by
    rw [← List.foldl_map, ← joinBar_cons]
    exact joinBar_ne_empty _ _ (escapeStr_ne_empty _ h0)
  rw [hjoin]
  exact compileCat_some san (.list ((f0 :: rest).map .str)) _ _ rfl
    (by rw [hsan]; exact hfull) hne

/-- Claim C4 (amended): for every rule category whose non-empty fragment
list begins with a fragment whose category normalization is non-empty,
the compiled matcher is exactly the anchored alternation "^(" followed by
the escaped normalized fragments joined by "|" and ")", compiled
case-insensitive, and it matches by prefix only — it matches a tested
string exactly when the string begins, case-insensitively, with one of
the normalized fragments.  For an empty fragment list no matcher is
produced, and an absent category never matches.  (The amendment — the
leading fragment must not normalize to the empty string — is forced by
c4_counterexample below.) -/
theorem c4_matcher_shape_and_prefix_semantics :
    (∀ (f0 : String) (rest : List String),
      compileCat sanitizePathRegex (.list ((f0 :: rest).map .str)) =
        .ok (some ⟨"^(" ++ joinBar ((f0 :: rest).map fun f => escapeStr (normPathStr f)) ++ ")",
                   (f0 :: rest).map normPathStr⟩) ∧
      compileCat sanitizeExtRegex (.list ((f0 :: rest).map .str)) =
        .ok (some ⟨"^(" ++ joinBar ((f0 :: rest).map fun f => escapeStr (normExtStr f)) ++ ")",
                   (f0 :: rest).map normExtStr⟩)) ∧
    (∀ (f0 : String) (rest : List String), normFileStr f0 ≠ "" →
      compileCat sanitizeFileRegex (.list ((f0 :: rest).map .str)) =
        .ok (some ⟨"^(" ++ joinBar ((f0 :: rest).map fun f => escapeStr (normFileStr f)) ++ ")",
                   (f0 :: rest).map normFileStr⟩)) ∧
    (∀ (m : CompiledMatcher) (s : String),
      matchesOpt (some m) s = m.alts.any fun a => ciStartsWith a s) ∧
    (compileCat sanitizePathRegex (.list []) = .ok none ∧
     compileCat sanitizeFileRegex (.list []) = .ok none ∧
     compileCat sanitizeExtRegex (.list []) = .ok none) ∧
    (∀ s : String, matchesOpt none s = false) := by
  refine ⟨?_, ?_, matchesOpt_some_any, ⟨rfl, rfl, rfl⟩, fun s => rfl⟩
  · intro f0 rest
    exact ⟨compileCat_full pathNorm sanitizePathRegex (fun ps => rfl) normPathStr
            pathNorm_str f0 rest (normPathStr_ne_empty f0),
          compileCat_full extNorm sanitizeExtRegex (fun ps => rfl) normExtStr
            extNorm_str f0 rest (normExtStr_ne_empty f0)⟩
  · intro f0 rest h0
    exact compileCat_full fileNorm sanitizeFileRegex (fun ps => rfl) normFileStr
      fileNorm_str f0 rest h0

/-- Witness for C4: the path fragment docs compiles to "^(\/docs)" and
matches both "/docs/readme.md" and "/docsx/other.md" (prefix-only, no end
anchor); the filename fragment readme compiles to "^(readme)" and matches
"README.md" (case-insensitive). -/
theorem c4_matcher_shape_and_prefix_semantics_witness :
    compileCat sanitizePathRegex (.list [.str "docs"]) =
      .ok (some ⟨"^(\\/docs)", ["/docs"]⟩) ∧
    matchesOpt (some ⟨"^(\\/docs)", ["/docs"]⟩) "/docs/readme.md" = true ∧
    matchesOpt (some ⟨"^(\\/docs)", ["/docs"]⟩) "/docsx/other.md" = true ∧
    compileCat sanitizeFileRegex (.list [.str "readme"]) =
      .ok (some ⟨"^(readme)", ["readme"]⟩) ∧
    matchesOpt (some ⟨"^(readme)", ["readme"]⟩) "README.md" = true := by
  refine ⟨?_, by decide, by decide, ?_, by decide⟩
  · exact (c4_matcher_shape_and_prefix_semantics.1 "docs" []).1
  · exact c4_matcher_shape_and_prefix_semantics.2.1 "readme" [] (by decide)

/-- Counterexample to claim C4 as stated: the filename category given the
non-empty fragment list consisting of the single fragment "/" produces NO
matcher at all — the fragment normalizes to the empty string, the joined
pattern text is empty, and the guard on the joined text leaves the
category absent — whereas the claim promises the compiled matcher for
every non-empty fragment list, which here would match the string "/a". -/
theorem c4_counterexample :
    compileCat sanitizeFileRegex (.list [.str "/"]) = .ok none ∧
    matchesOpt none "/a" = false :=
  ⟨rfl, rfl⟩

/-- Counterexample to claim C8 as stated: the configuration that supplies
the number 5 as an ignoreExts fragment — a non-text fragment in a rule
category — compiles WITHOUT any error: the extension normalization
coerces it to the text ".5" by string concatenation before regexEscape
runs, producing the matcher "^(\.5)". -/
theorem c8_counterexample :
    configureRegex { ignoreExts := CatVal.list [.num 5] } =
      .ok ⟨none, none, none, none, none, none, none, some ⟨"^(\\.5)", [".5"]⟩⟩ := by
  rfl

lemma fileText_ok (f : Frag) (hf : isTextFrag f = true) :
    ∃ t, fileNorm f = .ok (.str t) := by
  cases f with
  | str s => exact ⟨normFileStr s, fileNorm_str s⟩
  | num n => simp [isTextFrag] at hf
  | bool b => simp [isTextFrag] at hf
  | nil => simp [isTextFrag] at hf
  | undef => simp [isTextFrag] at hf

lemma pathTNB_ok (f : Frag) (hf : isTextNumBool f = true) :
    ∃ t, pathNorm f = .ok (.str t) := by
  cases f with
  | str s => exact ⟨normPathStr s, pathNorm_str s⟩
  | num n => exact ⟨"/" ++ fragToString (.num n), rfl⟩
  | bool b => exact ⟨"/" ++ fragToString (.bool b), rfl⟩
  | nil => simp [isTextNumBool, isTextFrag, isNumBool] at hf
  | undef => simp [isTextNumBool, isTextFrag, isNumBool] at hf

lemma extTNB_ok (f : Frag) (hf : isTextNumBool f = true) :
    ∃ t, extNorm f = .ok (.str t) := by
  cases f with
  | str s => exact ⟨normExtStr s, extNorm_str s⟩
  | num n => exact ⟨"." ++ fragToString (.num n), rfl⟩
  | bool b => exact ⟨"." ++ fragToString (.bool b), rfl⟩
  | nil => simp [isTextNumBool, isTextFrag, isNumBool] at hf
  | undef => simp [isTextNumBool, isTextFrag, isNumBool] at hf

lemma sanitize_ok_of_pred (nrm : Frag → Except String Frag) (P : Frag → Bool)
    (hg : ∀ f, P f = true → ∃ t, nrm f = .ok (.str t)) :
    ∀ fs : List Frag, fs.all P = true → ∀ (ap : String) (alts : List String),
      ∃ r, sanitizeWith nrm fs ap alts = .ok r := by
  intro fs
  induction fs with
  | nil => intro _ ap alts; exact ⟨(ap, alts), rfl⟩
  | cons f rest ih =>
    intro hall ap alts
    have h1 : P f = true ∧ rest.all P = true := by
      simpa [List.all_cons, Bool.and_eq_true] using hall
    obtain ⟨t, ht⟩ := hg f h1.1
    simp only [sanitizeWith, ht, regexEscape, bind, Except.bind]
    exact ih h1.2 _ _

lemma compileCat_ok_of_pred (nrm : Frag → Except String Frag)
    (san : List Frag → Except String (String × List String))
    (hsan : ∀ ps, san ps = sanitizeWith nrm ps "" [])
    (P : Frag → Bool) (hg : ∀ f, P f = true → ∃ t, nrm f = .ok (.str t))
    (v : CatVal) (hv : (catFrags v).all P = true) :
    ∃ r, compileCat san v = .ok r := by
  by_cases htr : truthyCat v = true
  · have hv2 : (makeArray v).all P = true := by
      simpa [catFrags, htr] using hv
    obtain ⟨⟨ap, alts⟩, hr⟩ := sanitize_ok_of_pred nrm P hg (makeArray v) hv2 "" []
    refine ⟨if ap = "" then none else some ⟨"^(" ++ ap ++ ")", alts⟩, ?_⟩
    simp [compileCat, htr, hsan, hr, bind, Except.bind, pure, Except.pure]
  · refine ⟨none, ?_⟩
    simp [compileCat, htr, pure, Except.pure]

lemma sanitizeFile_err :
    ∀ fs : List Frag, (∃ f ∈ fs, isTextFrag f = false) →
      ∀ (ap : String) (alts : List String),
        ∃ e, sanitizeWith fileNorm fs ap alts = .error e := by
  intro fs
  induction fs with
  | nil => intro h; simp at h
  | cons f rest ih =>
    intro h ap alts
    cases f with
    | str s =>
      have hrest : ∃ f ∈ rest, isTextFrag f = false := by
        rcases h with ⟨f, hf, hp⟩
        rcases List.mem_cons.mp hf with rfl | hm
        · simp [isTextFrag] at hp
        · exact ⟨f, hm, hp⟩
      simp only [sanitizeWith, fileNorm_str, regexEscape, bind, Except.bind]
      exact ih hrest _ _
    | num n => exact ⟨_, rfl⟩
    | bool b => exact ⟨_, rfl⟩
    | nil => exact ⟨_, rfl⟩
    | undef => exact ⟨_, rfl⟩

lemma sanitize_err_nilundef (nrm : Frag → Except String Frag)
    (hg : ∀ f, isTextNumBool f = true → ∃ t, nrm f = .ok (.str t))
    (herrn : ∃ e, nrm .nil = .error e) (herru : ∃ e, nrm .undef = .error e) :
    ∀ fs : List Frag, (∃ f ∈ fs, isNilUndef f = true) →
      ∀ (ap : String) (alts : List String),
        ∃ e, sanitizeWith nrm fs ap alts = .error e := by
  intro fs
  induction fs with
  | nil => intro h; simp at h
  | cons f rest ih =>
    intro h ap alts
    by_cases hf : isNilUndef f = true
    · cases f with
      | nil =>
        obtain ⟨e, he⟩ := herrn
        exact ⟨e, by simp [sanitizeWith, he, bind, Except.bind]⟩
      | undef =>
        obtain ⟨e, he⟩ := herru
        exact ⟨e, by simp [sanitizeWith, he, bind, Except.bind]⟩
      | str s => simp [isNilUndef] at hf
      | num n => simp [isNilUndef] at hf
      | bool b => simp [isNilUndef] at hf
    · have htnb : isTextNumBool f = true := by
        cases f <;> simp_all [isNilUndef, isTextNumBool, isTextFrag, isNumBool]
      obtain ⟨t, ht⟩ := hg f htnb
      have hrest : ∃ g ∈ rest, isNilUndef g = true := by
        rcases h with ⟨g, hgm, hgp⟩
        rcases List.mem_cons.mp hgm with rfl | hm
        · exact absurd hgp hf
        · exact ⟨g, hm, hgp⟩
      simp only [sanitizeWith, ht, regexEscape, bind, Except.bind]
      exact ih hrest _ _

lemma compileCat_err (san : List Frag → Except String (String × List String))
    (v : CatVal) (htr : truthyCat v = true)
    (he : ∃ e, san (makeArray v) = .error e) :
    isOkE (compileCat san v) = false := by
  obtain ⟨e, hee⟩ := he
  simp [compileCat, htr, hee, bind, Except.bind, isOkE]

lemma nilundef_nontext {l : List Frag} (h : ∃ f ∈ l, isNilUndef f = true) :
    ∃ f ∈ l, isTextFrag f = false := by
  obtain ⟨f, hm, hp⟩ := h
  refine ⟨f, hm, ?_⟩
  cases f <;> simp_all [isNilUndef, isTextFrag]

lemma configureRegex_parts (o : OptsCfg) (h : isOkE (configureRegex o) = true) :
    isOkE (compileCat sanitizePathRegex o.allowPaths) = true ∧
    isOkE (compileCat sanitizePathRegex o.ignorePaths) = true ∧
    isOkE (compileCat sanitizeFileRegex o.onlyFiles) = true ∧
    isOkE (compileCat sanitizeFileRegex o.allowFiles) = true ∧
    isOkE (compileCat sanitizeFileRegex o.ignoreFiles) = true ∧
    isOkE (compileCat sanitizeFileRegex o.ignoreFilesFirst) = true ∧
    isOkE (compileCat sanitizeFileRegex o.ignoreDirs) = true ∧
    isOkE (compileCat sanitizeExtRegex o.ignoreExts) = true := by
  simp only [configureRegex, bind, Except.bind] at h
  rcases h1 : compileCat sanitizePathRegex o.allowPaths with e1 | v1 <;>
    simp only [h1] at h
  · simp [isOkE] at h
  rcases h2 : compileCat sanitizePathRegex o.ignorePaths with e2 | v2 <;>
    simp only [h2] at h
  · simp [isOkE] at h
  rcases h3 : compileCat sanitizeFileRegex o.onlyFiles with e3 | v3 <;>
    simp only [h3] at h
  · simp [isOkE] at h
  rcases h4 : compileCat sanitizeFileRegex o.allowFiles with e4 | v4 <;>
    simp only [h4] at h
  · simp [isOkE] at h
  rcases h5 : compileCat sanitizeFileRegex o.ignoreFiles with e5 | v5 <;>
    simp only [h5] at h
  · simp [isOkE] at h
  rcases h6 : compileCat sanitizeFileRegex o.ignoreFilesFirst with e6 | v6 <;>
    simp only [h6] at h
  · simp [isOkE] at h
  rcases h7 : compileCat sanitizeFileRegex o.ignoreDirs with e7 | v7 <;>
    simp only [h7] at h
  · simp [isOkE] at h
  rcases h8 : compileCat sanitizeExtRegex o.ignoreExts with e8 | v8 <;>
    simp only [h8] at h
  · simp [isOkE] at h
  exact ⟨by simp [h1, isOkE], by simp [h2, isOkE], by simp [h3, isOkE],
         by simp [h4, isOkE], by simp [h5, isOkE], by simp [h6, isOkE],
         by simp [h7, isOkE], by simp [h8, isOkE]⟩

lemma allText_benign (o : OptsCfg) (h : allTextOpts o = true) : benignOpts o = true := by
  simp only [allTextOpts, Bool.and_eq_true] at h
  obtain ⟨⟨⟨⟨⟨⟨⟨hap, hip⟩, honf⟩, haf⟩, hif⟩, hiff⟩, hid⟩, hie⟩ := h
  have w : ∀ v : CatVal, catAllText v = true → catAllTNB v = true := by
    intro v hv
    simp only [catAllText, List.all_eq_true] at hv
    simp only [catAllTNB, List.all_eq_true]
    intro f hf
    have := hv f hf
    cases f <;> simp_all [isTextFrag, isTextNumBool, isNumBool]
  simp only [benignOpts, Bool.and_eq_true]
  exact ⟨⟨⟨⟨⟨⟨⟨w _ hap, w _ hip⟩, honf⟩, haf⟩, hif⟩, hiff⟩, hid⟩, w _ hie⟩

/-- Claim C8 (amended — see c8_counterexample): compilation never raises
an error for a configuration whose supplied fragments are all text, nor,
more generally, when the path and extension categories are supplied only
text, number or boolean fragments — a number or boolean there is coerced
to text by the separator or dot prepended during normalization, not
rejected — and the filename categories only text.  Compilation fails at
construction, before any traversal, whenever a truthy filename category
(onlyFiles, allowFiles, ignoreFiles, ignoreFilesFirst, ignoreDirs)
supplies a non-text fragment, and whenever any truthy category supplies
a null or undefined fragment; the per-category compiler rejects a
filename list led by a number or boolean fragment with precisely the
TypeMismatch GAError of regexEscape, and a path list led by null with
precisely the built-in TypeError of the indexing.  A falsy category
value is skipped and raises no error. -/
theorem c8_typemismatch_corrected (o : OptsCfg) :
    (allTextOpts o = true → isOkE (configureRegex o) = true) ∧
    (benignOpts o = true → isOkE (configureRegex o) = true) ∧
    (badFileCats o → isOkE (configureRegex o) = false) ∧
    (badNullOpts o → isOkE (configureRegex o) = false) ∧
    (∀ (n : Int) (rest : List Frag),
      compileCat sanitizeFileRegex (.list (.num n :: rest)) =
        .error "regexEscape requires a string, we got a number.") ∧
    (∀ (b : Bool) (rest : List Frag),
      compileCat sanitizeFileRegex (.list (.bool b :: rest)) =
        .error "regexEscape requires a string, we got a boolean.") ∧
    (∀ rest : List Frag,
      compileCat sanitizePathRegex (.list (.nil :: rest)) =
        .error "TypeError: Cannot read properties of null (reading 0)") ∧
    (∀ (san : List Frag → Except String (String × List String)) (v : CatVal),
      truthyCat v = false → compileCat san v = .ok none) := by
  have hben : benignOpts o = true → isOkE (configureRegex o) = true := by
    intro h
    simp only [benignOpts, Bool.and_eq_true] at h
    obtain ⟨⟨⟨⟨⟨⟨⟨hap, hip⟩, honf⟩, haf⟩, hif⟩, hiff⟩, hid⟩, hie⟩ := h
    obtain ⟨r1, e1⟩ := compileCat_ok_of_pred pathNorm sanitizePathRegex
      (fun ps => rfl) isTextNumBool pathTNB_ok o.allowPaths hap
    obtain ⟨r2, e2⟩ := compileCat_ok_of_pred pathNorm sanitizePathRegex
      (fun ps => rfl) isTextNumBool pathTNB_ok o.ignorePaths hip
    obtain ⟨r3, e3⟩ := compileCat_ok_of_pred fileNorm sanitizeFileRegex
      (fun ps => rfl) isTextFrag fileText_ok o.onlyFiles honf
    obtain ⟨r4, e4⟩ := compileCat_ok_of_pred fileNorm sanitizeFileRegex
      (fun ps => rfl) isTextFrag fileText_ok o.allowFiles haf
    obtain ⟨r5, e5⟩ := compileCat_ok_of_pred fileNorm sanitizeFileRegex
      (fun ps => rfl) isTextFrag fileText_ok o.ignoreFiles hif
    obtain ⟨r6, e6⟩ := compileCat_ok_of_pred fileNorm sanitizeFileRegex
      (fun ps => rfl) isTextFrag fileText_ok o.ignoreFilesFirst hiff
    obtain ⟨r7, e7⟩ := compileCat_ok_of_pred fileNorm sanitizeFileRegex
      (fun ps => rfl) isTextFrag fileText_ok o.ignoreDirs hid
    obtain ⟨r8, e8⟩ := compileCat_ok_of_pred extNorm sanitizeExtRegex
      (fun ps => rfl) isTextNumBool extTNB_ok o.ignoreExts hie
    simp [configureRegex, e1, e2, e3, e4, e5, e6, e7, e8, bind, Except.bind,
      pure, Except.pure, isOkE]
  refine ⟨fun h => hben (allText_benign o h), hben, ?_, ?_,
    fun n rest => rfl, fun b rest => rfl, fun rest => rfl,
    fun san v h => by simp [compileCat, h, pure, Except.pure]⟩
  · intro hb
    have hcontra : ¬isOkE (configureRegex o) = true := by
      intro hok
      have parts := configureRegex_parts o hok
      rcases hb with hb | hb | hb | hb | hb
      · have hf := compileCat_err sanitizeFileRegex o.onlyFiles hb.1
          (sanitizeFile_err (makeArray o.onlyFiles) hb.2 "" [])
        rw [parts.2.2.1] at hf
        simp at hf
      · have hf := compileCat_err sanitizeFileRegex o.allowFiles hb.1
          (sanitizeFile_err (makeArray o.allowFiles) hb.2 "" [])
        rw [parts.2.2.2.1] at hf
        simp at hf
      · have hf := compileCat_err sanitizeFileRegex o.ignoreFiles hb.1
          (sanitizeFile_err (makeArray o.ignoreFiles) hb.2 "" [])
        rw [parts.2.2.2.2.1] at hf
        simp at hf
      · have hf := compileCat_err sanitizeFileRegex o.ignoreFilesFirst hb.1
          (sanitizeFile_err (makeArray o.ignoreFilesFirst) hb.2 "" [])
        rw [parts.2.2.2.2.2.1] at hf
        simp at hf
      · have hf := compileCat_err sanitizeFileRegex o.ignoreDirs hb.1
          (sanitizeFile_err (makeArray o.ignoreDirs) hb.2 "" [])
        rw [parts.2.2.2.2.2.2.1] at hf
        simp at hf
    simpa using hcontra
  · intro hb
    have hcontra : ¬isOkE (configureRegex o) = true := by
      intro hok
      have parts := configureRegex_parts o hok
      rcases hb with hb | hb | hb | hb | hb | hb | hb | hb
      · have hf := compileCat_err sanitizePathRegex o.allowPaths hb.1
          (sanitize_err_nilundef pathNorm pathTNB_ok ⟨_, rfl⟩ ⟨_, rfl⟩
            (makeArray o.allowPaths) hb.2 "" [])
        rw [parts.1] at hf
        simp at hf
      · have hf := compileCat_err sanitizePathRegex o.ignorePaths hb.1
          (sanitize_err_nilundef pathNorm pathTNB_ok ⟨_, rfl⟩ ⟨_, rfl⟩
            (makeArray o.ignorePaths) hb.2 "" [])
        rw [parts.2.1] at hf
        simp at hf
      · have hf := compileCat_err sanitizeFileRegex o.onlyFiles hb.1
          (sanitizeFile_err (makeArray o.onlyFiles) (nilundef_nontext hb.2) "" [])
        rw [parts.2.2.1] at hf
        simp at hf
      · have hf := compileCat_err sanitizeFileRegex o.allowFiles hb.1
          (sanitizeFile_err (makeArray o.allowFiles) (nilundef_nontext hb.2) "" [])
        rw [parts.2.2.2.1] at hf
        simp at hf
      · have hf := compileCat_err sanitizeFileRegex o.ignoreFiles hb.1
          (sanitizeFile_err (makeArray o.ignoreFiles) (nilundef_nontext hb.2) "" [])
        rw [parts.2.2.2.2.1] at hf
        simp at hf
      · have hf := compileCat_err sanitizeFileRegex o.ignoreFilesFirst hb.1
          (sanitizeFile_err (makeArray o.ignoreFilesFirst) (nilundef_nontext hb.2) "" [])
        rw [parts.2.2.2.2.2.1] at hf
        simp at hf
      · have hf := compileCat_err sanitizeFileRegex o.ignoreDirs hb.1
          (sanitizeFile_err (makeArray o.ignoreDirs) (nilundef_nontext hb.2) "" [])
        rw [parts.2.2.2.2.2.2.1] at hf
        simp at hf
      · have hf := compileCat_err sanitizeExtRegex o.ignoreExts hb.1
          (sanitize_err_nilundef extNorm extTNB_ok ⟨_, rfl⟩ ⟨_, rfl⟩
            (makeArray o.ignoreExts) hb.2 "" [])
        rw [parts.2.2.2.2.2.2.2] at hf
        simp at hf
    simpa using hcontra

/-- Witness for C8: an all-text configuration compiles; the non-text
extension fragment 5 (a benign configuration) also compiles, coerced;
a number fragment inside allowFiles fails; a null fragment inside
ignorePaths fails. -/
theorem c8_typemismatch_corrected_witness :
    isOkE (configureRegex { onlyFiles := CatVal.list [.str "readme"] }) = true ∧
    isOkE (configureRegex { ignoreExts := CatVal.list [.num 5] }) = true ∧
    isOkE (configureRegex { allowFiles := CatVal.list [.str "a", .num 5] }) = false ∧
    isOkE (configureRegex { ignorePaths := CatVal.list [.nil] }) = false :=
  ⟨(c8_typemismatch_corrected _).1 (by decide),
   (c8_typemismatch_corrected _).2.1 (by decide),
   (c8_typemismatch_corrected _).2.2.1
     (Or.inr (Or.inl ⟨rfl, ⟨.num 5, by decide, rfl⟩⟩)),
   (c8_typemismatch_corrected _).2.2.2.1
     (Or.inr (Or.inl ⟨rfl, ⟨.nil, by decide, rfl⟩⟩))⟩
